import Mathlib

/-!
Verification of the Claude integration layer of OpenSClaude
(src/gui/claude): the conversation-history model and its wire-format
grouping (ClaudeHistory.cc, ClaudeMessage.h), the persisted-format
round trip (ClaudeMessage.h), the SSE frame parser, content
accumulator and retry controller (ClaudeApiClient.cc).

The C++ code is shallowly embedded: Qt JSON values become the `JVal`
inductive with Qt's defaulting accessor semantics, QString becomes
`String`, QByteArray becomes `List Char` (one `Char` per byte; all
delimiters searched for are ASCII), and the Qt JSON text parser
(`QJsonDocument::fromJson`), which is external to the repository, is a
parameter `jp : String → Option JVal` of every function that uses it
(`none` models a parse error).
-/

/-- Model of a Qt JSON value (`QJsonValue`).  Numbers are modelled as
integers: every number handled by the embedded code paths is integral. -/
inductive JVal where
  | jnull
  | jbool (b : Bool)
  | jnum (n : Int)
  | jstr (s : String)
  | jarr (elems : List JVal)
  | jobj (fields : List (String × JVal))

/-- A JSON object (`QJsonObject`): an association list of fields.
The embedded code only ever builds objects with pairwise-distinct keys,
so the list order is exactly insertion order. -/
abbrev JObj := List (String × JVal)

/-- Key lookup in a JSON object; `none` models `QJsonValue::Undefined`
for an absent key. -/
def jLookup : JObj → String → Option JVal
  | [], _ => none
  | (k, v) :: rest, key => if k = key then some v else jLookup rest key

/-- `QJsonObject::operator[] ... .toString()`: a missing key or a
non-string value yields the default empty string. -/
def jGetString (o : JObj) (k : String) : String :=
  match jLookup o k with
  | some (JVal.jstr s) => s
  | _ => ""

/-- `... .toInt()`: a missing key or a non-numeric value yields 0. -/
def jGetInt (o : JObj) (k : String) : Int :=
  match jLookup o k with
  | some (JVal.jnum n) => n
  | _ => 0

/-- `... .toBool()`: a missing key or a non-bool value yields false. -/
def jGetBool (o : JObj) (k : String) : Bool :=
  match jLookup o k with
  | some (JVal.jbool b) => b
  | _ => false

/-- `... .toObject()`: a missing key or a non-object value yields the
empty object. -/
def jGetObj (o : JObj) (k : String) : JObj :=
  match jLookup o k with
  | some (JVal.jobj f) => f
  | _ => []

/-- `... .toArray()`: a missing key or a non-array value yields the
empty array. -/
def jGetArr (o : JObj) (k : String) : List JVal :=
  match jLookup o k with
  | some (JVal.jarr a) => a
  | _ => []

/-- `QJsonObject::contains`. -/
def jContains (o : JObj) (k : String) : Bool :=
  (jLookup o k).isSome

/-- The raw `QJsonValue` at a key (used where the C++ assigns
`obj[k]` directly); `jnull` stands in for an absent key, which the
embedded code only reads behind a `contains` check. -/
def jGet (o : JObj) (k : String) : JVal :=
  (jLookup o k).getD JVal.jnull

/-- `QJsonObject::operator[]= insertion`: replace an existing key,
else append.  All insertions in the embedded code use fresh keys. -/
def jInsert (o : JObj) (k : String) (v : JVal) : JObj :=
  match o with
  | [] => [(k, v)]
  | (k2, v2) :: rest => if k2 = k then (k, v) :: rest else (k2, v2) :: jInsert rest k v

/-- `Message::Role` from ClaudeMessage.h, in C++ declaration order. -/
inductive Role where
  | user
  | assistant
  | toolUse
  | toolResult
  deriving DecidableEq, Repr

/-- `static_cast<int>(role)`: the C++ enum value. -/
def roleToInt : Role → Int
  | Role.user => 0
  | Role.assistant => 1
  | Role.toolUse => 2
  | Role.toolResult => 3

/-- `static_cast<Role>(n)` in `Message::fromHistoryFormat`.  For n
outside 0..3 the C++ cast is undefined behaviour; the model maps such
values to `user`, but only 0..3 ever arise in a round trip. -/
def intToRole (n : Int) : Role :=
  if n = 0 then Role.user
  else if n = 1 then Role.assistant
  else if n = 2 then Role.toolUse
  else if n = 3 then Role.toolResult
  else Role.user

/-- `struct Message` from ClaudeMessage.h.  `timestamp` models the
`QDateTime` instant as milliseconds since the epoch (a natural number:
turns are stamped with the current time). -/
structure Message where
  role : Role
  content : String
  timestamp : Nat
  model : String
  toolId : String
  toolName : String
  toolInput : JObj
  isError : Bool

/-- Decimal digit to character, for the timestamp codec below. -/
def digitChar (d : Nat) : Char :=
  if d = 0 then '0' else if d = 1 then '1' else if d = 2 then '2'
  else if d = 3 then '3' else if d = 4 then '4' else if d = 5 then '5'
  else if d = 6 then '6' else if d = 7 then '7' else if d = 8 then '8' else '9'

/-- Character back to decimal digit. -/
def charDigit (c : Char) : Nat :=
  if c = '0' then 0 else if c = '1' then 1 else if c = '2' then 2
  else if c = '3' then 3 else if c = '4' then 4 else if c = '5' then 5
  else if c = '6' then 6 else if c = '7' then 7 else if c = '8' then 8 else 9

/-- Injective rendering of a natural number as a digit string
(little-endian digits; injectivity is all that matters here). -/
def encodeNatStr (n : Nat) : String :=
  String.mk ((Nat.digits 10 n).map digitChar)

/-- Inverse of `encodeNatStr`. -/
def decodeNatStr (s : String) : Nat :=
  Nat.ofDigits 10 (s.data.map charDigit)

theorem charDigit_digitChar {d : Nat} (h : d < 10) : charDigit (digitChar d) = d := by
  interval_cases d <;> rfl

theorem decodeNatStr_encodeNatStr (n : Nat) : decodeNatStr (encodeNatStr n) = n := by
  unfold decodeNatStr encodeNatStr
  have hd : (String.mk ((Nat.digits 10 n).map digitChar)).data
      = (Nat.digits 10 n).map digitChar := rfl
  rw [hd, List.map_map]
  have hm : ((Nat.digits 10 n).map (charDigit ∘ digitChar)) = (Nat.digits 10 n).map id := by
    apply List.map_congr_left
    intro d hdm
    have hlt : d < 10 := Nat.digits_lt_base (by norm_num) hdm
    simp only [Function.comp_apply, id]
    exact charDigit_digitChar hlt
  rw [hm, List.map_id]
  exact_mod_cast Nat.ofDigits_digits 10 n

/-- `timestamp.toString(Qt::ISODate)`: Qt's ISODate format renders
whole seconds only (milliseconds are dropped; Qt::ISODateWithMs would
keep them).  Modelled as an injective encoding of the second count. -/
def isoDate (msecs : Nat) : String :=
  encodeNatStr (msecs / 1000)

/-- `QDateTime::fromString(s, Qt::ISODate)`: recovers a whole-second
instant (sub-second part zero). -/
def fromIsoDate (s : String) : Nat :=
  decodeNatStr s * 1000

/-- `Message::toHistoryFormat` (ClaudeMessage.h): role as its enum
integer, content and ISO-format timestamp always present, the optional
fields only when non-empty / true, in the C++ insertion order. -/
def Message.toHistoryFormat (m : Message) : JObj :=
  [("role", JVal.jnum (roleToInt m.role)),
   ("content", JVal.jstr m.content),
   ("timestamp", JVal.jstr (isoDate m.timestamp))]
  ++ (if m.model = "" then [] else [("model", JVal.jstr m.model)])
  ++ (if m.toolId = "" then [] else [("tool_id", JVal.jstr m.toolId)])
  ++ (if m.toolName = "" then [] else [("tool_name", JVal.jstr m.toolName)])
  ++ (if m.toolInput.isEmpty then [] else [("tool_input", JVal.jobj m.toolInput)])
  ++ (if m.isError then [("is_error", JVal.jbool true)] else [])

/-- `Message::fromHistoryFormat` (ClaudeMessage.h): absent optional
fields default to empty / false through the Qt accessor defaults. -/
def Message.fromHistoryFormat (o : JObj) : Message :=
  { role := intToRole (jGetInt o "role"),
    content := jGetString o "content",
    timestamp := fromIsoDate (jGetString o "timestamp"),
    model := jGetString o "model",
    toolId := jGetString o "tool_id",
    toolName := jGetString o "tool_name",
    toolInput := jGetObj o "tool_input",
    isError := jGetBool o "is_error" }

theorem intToRole_roleToInt (r : Role) : intToRole (roleToInt r) = r := by
  cases r <;> rfl

/-- The persisted-format round trip restores every field except that
the timestamp is truncated to whole seconds (Qt::ISODate drops the
sub-second part). -/
theorem fromHistory_toHistory (m : Message) :
    Message.fromHistoryFormat (Message.toHistoryFormat m)
      = { m with timestamp := m.timestamp / 1000 * 1000 } := by
  obtain ⟨r, c, ts, mo, tid, tn, ti, ie⟩ := m
  simp only [Message.toHistoryFormat, Message.fromHistoryFormat]
  split_ifs <;>
    simp_all [jLookup, jGetInt, jGetString, jGetObj, jGetBool, fromIsoDate, isoDate,
      decodeNatStr_encodeNatStr, intToRole_roleToInt, List.isEmpty_iff]

/-- The concrete turn refuting the exact round-trip law: a user turn
created 1 millisecond after the epoch. -/
def msTurn : Message :=
  { role := Role.user, content := "", timestamp := 1, model := "",
    toolId := "", toolName := "", toolInput := [], isError := false }

/-- Claim C3 (counterexample): the round trip is not the identity on
every valid turn — a timestamp with a non-zero sub-second part comes
back truncated to the whole second. -/
theorem claim_c3_counterexample :
    (Message.fromHistoryFormat (Message.toHistoryFormat msTurn)).timestamp = 0
    ∧ msTurn.timestamp = 1
    ∧ Message.fromHistoryFormat (Message.toHistoryFormat msTurn) ≠ msTurn := by
  refine ⟨?_, rfl, ?_⟩
  · simp [msTurn, Message.toHistoryFormat, Message.fromHistoryFormat, jLookup,
      jGetString, fromIsoDate, isoDate, encodeNatStr, decodeNatStr]
  · intro h
    have h2 := congrArg Message.timestamp h
    simp [msTurn, Message.toHistoryFormat, Message.fromHistoryFormat, jLookup,
      jGetString, fromIsoDate, isoDate, encodeNatStr, decodeNatStr] at h2

/-- Claim C3 (amended): deserializing the persisted form of a valid
turn restores the role, text, model, toolCallId, toolName, toolInput
and isError fields exactly (absent optional fields defaulting to
empty/false), and restores the timestamp truncated to whole seconds;
a turn whose timestamp has no sub-second part round-trips exactly. -/
theorem claim_c3_roundtrip (m : Message) :
    Message.fromHistoryFormat (Message.toHistoryFormat m)
      = { m with timestamp := m.timestamp / 1000 * 1000 }
    ∧ (m.timestamp % 1000 = 0 →
        Message.fromHistoryFormat (Message.toHistoryFormat m) = m) := by
  refine ⟨fromHistory_toHistory m, fun hms => ?_⟩
  rw [fromHistory_toHistory m]
  have : m.timestamp / 1000 * 1000 = m.timestamp := by omega
  rw [this]

/-- `HISTORY_VERSION` (ClaudeWidget.h). -/
def HISTORY_VERSION : Int := 1

/-- `History::load` (ClaudeHistory.cc), modelled on its input data.
`file = none` is an absent or unreadable file (the early returns for
`!file.exists()` and a failed `open`); `file = some none` is contents
on which `QJsonDocument::fromJson` does not produce a JSON object
(malformed JSON, covering the `!doc.isObject()` return); `file = some
(some root)` is a parsed document.  The function returns the new
in-memory turn sequence given the current one; every failure path
leaves the current sequence untouched and returns normally. -/
def loadHistory (file : Option (Option JVal)) (cur : List Message) : List Message :=
  match file with
  | none => cur
  | some none => cur
  | some (some doc) =>
    match doc with
    | JVal.jobj root =>
      if jGetInt root "version" ≠ HISTORY_VERSION then cur
      else (jGetArr root "messages").map (fun v =>
        Message.fromHistoryFormat (match v with | JVal.jobj o => o | _ => []))
    | _ => cur

/-- Claim C7: an absent file, malformed JSON, or a version integer
different from the current format version all leave the in-memory
turn sequence unchanged — in particular an initially empty sequence
stays empty — and `load` returns normally (the model is a total
function with no error outcome). -/
theorem claim_c7_load_failure (file : Option (Option JVal)) (cur : List Message)
    (h : file = none ∨ file = some none
      ∨ ∃ root, file = some (some (JVal.jobj root))
          ∧ jGetInt root "version" ≠ HISTORY_VERSION) :
    loadHistory file cur = cur := by
  rcases h with h | h | ⟨root, hf, hv⟩
  · rw [h]; rfl
  · rw [h]; rfl
  · rw [hf]
    simp [loadHistory, hv]

/-- Claim C7 witness: a persisted file whose version integer is one
less than the current version (0 versus 1) loads nothing. -/
theorem claim_c7_witness :
    loadHistory (some (some (JVal.jobj [("version", JVal.jnum 0)]))) [] = [] := by
  have h := claim_c7_load_failure
    (some (some (JVal.jobj [("version", JVal.jnum 0)]))) []
    (Or.inr (Or.inr ⟨[("version", JVal.jnum 0)], rfl, by decide⟩))
  exact h

/-- One content block inside a wire message's content array
(the JSON object shapes built by ClaudeHistory.cc / ClaudeApiClient.cc). -/
inductive Block where
  | text (t : String)
  | toolUseB (id : String) (name : String) (input : JObj)
  | toolResultB (toolUseId : String) (content : String) (isError : Bool)

/-- A wire message: role string plus content that is either a plain
string or an array of content blocks (the two JSON forms the code
assigns to the "content" key).  In `toolResultB`, `isError = false`
models the `is_error` key being absent (it is written only when true,
and reads back as false when absent). -/
inductive WireContent where
  | str (s : String)
  | arr (blocks : List Block)

structure WireMsg where
  role : String
  content : WireContent

/-- `Message::toApiFormat` (ClaudeMessage.h): the per-turn wire
serialization. -/
def Message.toApiFormat (m : Message) : WireMsg :=
  match m.role with
  | Role.user => ⟨"user", WireContent.str m.content⟩
  | Role.assistant => ⟨"assistant", WireContent.str m.content⟩
  | Role.toolUse =>
    ⟨"assistant", WireContent.arr [Block.toolUseB m.toolId m.toolName m.toolInput]⟩
  | Role.toolResult =>
    ⟨"user", WireContent.arr [Block.toolResultB m.toolId m.content m.isError]⟩

/-- The tool_use block built from a ToolUse turn in
`History::toApiMessages`. -/
def tuBlock (m : Message) : Block :=
  Block.toolUseB m.toolId m.toolName m.toolInput

/-- The tool_result block built from a ToolResult turn in
`History::toApiMessages` (`is_error` written only when true). -/
def trBlock (m : Message) : Block :=
  Block.toolResultB m.toolId m.content m.isError

/-- The inner `while (... role == ToolUse)` collection loop of
`History::toApiMessages`: one tool_use block per leading ToolUse turn,
plus the remaining turns. -/
def collectToolUses : List Message → List Block × List Message
  | [] => ([], [])
  | m :: rest =>
    if m.role = Role.toolUse then
      (tuBlock m :: (collectToolUses rest).1, (collectToolUses rest).2)
    else ([], m :: rest)

/-- The inner `while (... role == ToolResult)` collection loop. -/
def collectToolResults : List Message → List Block × List Message
  | [] => ([], [])
  | m :: rest =>
    if m.role = Role.toolResult then
      (trBlock m :: (collectToolResults rest).1, (collectToolResults rest).2)
    else ([], m :: rest)

/-- The `if (... role == ToolResult) { ... }` step that follows a
merged assistant message: when the next turns are ToolResults, one
user wire message bundling them; otherwise nothing. -/
def resultsGroup (l : List Message) : List WireMsg × List Message :=
  if (collectToolResults l).1.isEmpty then ([], l)
  else ([⟨"user", WireContent.arr (collectToolResults l).1⟩], (collectToolResults l).2)

/-- The text block of the merged assistant message: present only when
the Assistant turn's text is non-empty. -/
def assistantTextBlocks (c : String) : List Block :=
  if c = "" then [] else [Block.text c]

theorem collectToolUses_length_le (l : List Message) :
    (collectToolUses l).2.length ≤ l.length := by
  induction l with
  | nil => simp [collectToolUses]
  | cons m rest ih =>
    rw [collectToolUses]
    split <;> simp <;> omega

theorem collectToolResults_length_le (l : List Message) :
    (collectToolResults l).2.length ≤ l.length := by
  induction l with
  | nil => simp [collectToolResults]
  | cons m rest ih =>
    rw [collectToolResults]
    split <;> simp <;> omega

theorem collectToolUses_lengths (l : List Message) :
    (collectToolUses l).1.length + (collectToolUses l).2.length = l.length := by
  induction l with
  | nil => simp [collectToolUses]
  | cons m rest ih =>
    rw [collectToolUses]
    split <;> simp <;> omega

theorem collectToolResults_lengths (l : List Message) :
    (collectToolResults l).1.length + (collectToolResults l).2.length = l.length := by
  induction l with
  | nil => simp [collectToolResults]
  | cons m rest ih =>
    rw [collectToolResults]
    split <;> simp <;> omega

theorem resultsGroup_length_le (l : List Message) :
    (resultsGroup l).2.length ≤ l.length := by
  rw [resultsGroup]
  split
  · simp
  · simpa using collectToolResults_length_le l

/-- `History::toApiMessages` (ClaudeHistory.cc): the grouping walk.
A User turn emits its per-turn form; an Assistant turn opens an
assistant message absorbing the following ToolUse run, then bundles a
following ToolResult run into one user message; a leading ToolUse or
ToolResult run is handled the same way from that point (the
"shouldn't happen normally" defensive branches).  `Role` has exactly
the four C++ enumerators, so the C++ "unknown role" skip branch is
unreachable and has no counterpart here. -/
def toApiMessages : List Message → List WireMsg
  | [] => []
  | m :: rest =>
    if m.role = Role.user then
      m.toApiFormat :: toApiMessages rest
    else if m.role = Role.assistant then
      (WireMsg.mk "assistant"
          (WireContent.arr (assistantTextBlocks m.content ++ (collectToolUses rest).1))
        :: (resultsGroup (collectToolUses rest).2).1)
      ++ toApiMessages (resultsGroup (collectToolUses rest).2).2
    else if m.role = Role.toolUse then
      (WireMsg.mk "assistant"
          (WireContent.arr (tuBlock m :: (collectToolUses rest).1))
        :: (resultsGroup (collectToolUses rest).2).1)
      ++ toApiMessages (resultsGroup (collectToolUses rest).2).2
    else
      WireMsg.mk "user" (WireContent.arr (trBlock m :: (collectToolResults rest).1))
        :: toApiMessages (collectToolResults rest).2
termination_by l => l.length
decreasing_by
  · simp only [List.length_cons]
    omega
  · have h1 := collectToolUses_length_le rest
    have h2 := resultsGroup_length_le (collectToolUses rest).2
    simp only [List.length_cons]
    omega
  · have h1 := collectToolUses_length_le rest
    have h2 := resultsGroup_length_le (collectToolUses rest).2
    simp only [List.length_cons]
    omega
  · have h1 := collectToolResults_length_le rest
    simp only [List.length_cons]
    omega

/-- No turn of role `r` at the head of `l` (vacuously true for `[]`). -/
def headRoleNe (l : List Message) (r : Role) : Prop :=
  ∀ m ∈ l.head?, m.role ≠ r

theorem collectToolUses_of_head {l : List Message} (h : headRoleNe l Role.toolUse) :
    collectToolUses l = ([], l) := by
  cases l with
  | nil => rfl
  | cons m rest =>
    have hm : m.role ≠ Role.toolUse := h m (by simp)
    rw [collectToolUses, if_neg hm]

theorem collectToolResults_of_head {l : List Message} (h : headRoleNe l Role.toolResult) :
    collectToolResults l = ([], l) := by
  cases l with
  | nil => rfl
  | cons m rest =>
    have hm : m.role ≠ Role.toolResult := h m (by simp)
    rw [collectToolResults, if_neg hm]

theorem collectToolUses_append (k l : List Message) (h : headRoleNe l Role.toolUse) :
    collectToolUses (k ++ l) = ((collectToolUses k).1, (collectToolUses k).2 ++ l) := by
  induction k with
  | nil => simp [collectToolUses, collectToolUses_of_head h]
  | cons m k2 ih =>
    by_cases hm : m.role = Role.toolUse
    · simp [collectToolUses, hm, ih]
    · simp [collectToolUses, hm]

theorem collectToolResults_append (k l : List Message) (h : headRoleNe l Role.toolResult) :
    collectToolResults (k ++ l) = ((collectToolResults k).1, (collectToolResults k).2 ++ l) := by
  induction k with
  | nil => simp [collectToolResults, collectToolResults_of_head h]
  | cons m k2 ih =>
    by_cases hm : m.role = Role.toolResult
    · simp [collectToolResults, hm, ih]
    · simp [collectToolResults, hm]

theorem collectToolUses_all {tus : List Message} (h : ∀ m ∈ tus, m.role = Role.toolUse) :
    collectToolUses tus = (tus.map tuBlock, []) := by
  induction tus with
  | nil => rfl
  | cons m rest ih =>
    have hm : m.role = Role.toolUse := h m (by simp)
    rw [collectToolUses, if_pos hm, ih (fun x hx => h x (by simp [hx]))]
    simp

theorem collectToolResults_all {trs : List Message} (h : ∀ m ∈ trs, m.role = Role.toolResult) :
    collectToolResults trs = (trs.map trBlock, []) := by
  induction trs with
  | nil => rfl
  | cons m rest ih =>
    have hm : m.role = Role.toolResult := h m (by simp)
    rw [collectToolResults, if_pos hm, ih (fun x hx => h x (by simp [hx]))]
    simp

theorem resultsGroup_append (l t : List Message) (h : headRoleNe t Role.toolResult) :
    resultsGroup (l ++ t) = ((resultsGroup l).1, (resultsGroup l).2 ++ t) := by
  rw [resultsGroup, resultsGroup, collectToolResults_append l t h]
  split <;> simp_all

theorem resultsGroup_spec {trs : List Message} (rest : List Message)
    (h1 : ∀ m ∈ trs, m.role = Role.toolResult) (h2 : headRoleNe rest Role.toolResult) :
    resultsGroup (trs ++ rest)
      = ((if trs.isEmpty then []
          else [WireMsg.mk "user" (WireContent.arr (trs.map trBlock))]), rest) := by
  rw [resultsGroup, collectToolResults_append trs rest h2, collectToolResults_all h1]
  cases trs <;> simp

/-- A turn that always terminates any ToolUse/ToolResult collection
run: a User or Assistant turn. -/
def stopsTurn (l : List Message) : Prop :=
  ∀ m ∈ l.head?, m.role = Role.user ∨ m.role = Role.assistant

theorem stopsTurn_ne_toolUse {l : List Message} (h : stopsTurn l) :
    headRoleNe l Role.toolUse := by
  intro m hm
  rcases h m hm with h2 | h2 <;> simp [h2]

theorem stopsTurn_ne_toolResult {l : List Message} (h : stopsTurn l) :
    headRoleNe l Role.toolResult := by
  intro m hm
  rcases h m hm with h2 | h2 <;> simp [h2]

/-- The grouping walk never reaches across a User or Assistant turn:
processing `pre ++ suffix` where `suffix` starts with a User or
Assistant turn (or is empty) is processing `pre` then `suffix`. -/
theorem toApiMessages_append (pre suffix : List Message) (hs : stopsTurn suffix) :
    toApiMessages (pre ++ suffix) = toApiMessages pre ++ toApiMessages suffix := by
  induction pre using toApiMessages.induct with
  | case1 => simp [toApiMessages]
  | case2 m rest h1 ih =>
    simp only [List.cons_append, toApiMessages, if_pos h1, ih]
  | case3 m rest h1 h2 ih =>
    simp only [List.cons_append, toApiMessages, if_neg h1, if_pos h2]
    rw [collectToolUses_append rest suffix (stopsTurn_ne_toolUse hs),
      resultsGroup_append _ suffix (stopsTurn_ne_toolResult hs)]
    dsimp only
    rw [ih]
    simp
  | case4 m rest h1 h2 h3 ih =>
    simp only [List.cons_append, toApiMessages, if_neg h1, if_neg h2, if_pos h3]
    rw [collectToolUses_append rest suffix (stopsTurn_ne_toolUse hs),
      resultsGroup_append _ suffix (stopsTurn_ne_toolResult hs)]
    dsimp only
    rw [ih]
    simp
  | case5 m rest h1 h2 h3 ih =>
    simp only [List.cons_append, toApiMessages, if_neg h1, if_neg h2, if_neg h3]
    rw [collectToolResults_append rest suffix (stopsTurn_ne_toolResult hs)]
    dsimp only
    rw [ih]

/-- The run-merging behaviour of the grouping walk: an Assistant turn,
the maximal following ToolUse run and the maximal following ToolResult
run become one assistant wire message plus (when the ToolResult run is
non-empty) one user wire message, and the walk continues on the rest. -/
theorem toApiMessages_group (pre tus trs rest : List Message) (a : Message)
    (ha : a.role = Role.assistant)
    (htus : ∀ m ∈ tus, m.role = Role.toolUse)
    (htrs : ∀ m ∈ trs, m.role = Role.toolResult)
    (hmaxU : trs = [] → headRoleNe rest Role.toolUse)
    (hmaxR : headRoleNe rest Role.toolResult) :
    toApiMessages (pre ++ (a :: (tus ++ (trs ++ rest))))
      = toApiMessages pre
        ++ (WireMsg.mk "assistant"
              (WireContent.arr (assistantTextBlocks a.content ++ tus.map tuBlock))
            :: ((if trs.isEmpty then []
                 else [WireMsg.mk "user" (WireContent.arr (trs.map trBlock))])
                ++ toApiMessages rest)) := by
  have hstops : stopsTurn (a :: (tus ++ (trs ++ rest))) := by
    intro m hm
    simp only [List.head?_cons, Option.mem_def, Option.some.injEq] at hm
    subst hm
    exact Or.inr ha
  rw [toApiMessages_append pre _ hstops]
  have hne : headRoleNe (trs ++ rest) Role.toolUse := by
    cases trs with
    | nil => simpa using hmaxU rfl
    | cons t ts =>
      intro m hm
      simp only [List.cons_append, List.head?_cons, Option.mem_def, Option.some.injEq] at hm
      subst hm
      simp [htrs t (by simp)]
  have hu : ¬ (a.role = Role.user) := by simp [ha]
  rw [toApiMessages, if_neg hu, if_pos ha,
    collectToolUses_append tus (trs ++ rest) hne, collectToolUses_all htus]
  dsimp only
  rw [List.nil_append, resultsGroup_spec rest htrs hmaxR]
  simp

theorem toApiMessages_nil : toApiMessages [] = [] := by
  simp [toApiMessages]

/-- Claim C1: an Assistant turn plus the maximal run of ToolCall
(ToolUse) turns immediately following it becomes exactly one assistant
wire message whose content array holds a text block for the Assistant
turn's text (present only when non-empty) followed by one tool-call
block per ToolCall turn in order; the maximal run of ToolResult turns
immediately after becomes exactly one user wire message with one
tool-result block per turn, in order. -/
theorem claim_c1_grouping (pre tus trs rest : List Message) (a : Message)
    (ha : a.role = Role.assistant)
    (htus : ∀ m ∈ tus, m.role = Role.toolUse)
    (htrs : ∀ m ∈ trs, m.role = Role.toolResult)
    (hmaxU : trs = [] → headRoleNe rest Role.toolUse)
    (hmaxR : headRoleNe rest Role.toolResult) :
    toApiMessages (pre ++ (a :: (tus ++ (trs ++ rest))))
      = toApiMessages pre
        ++ (WireMsg.mk "assistant"
              (WireContent.arr ((if a.content = "" then [] else [Block.text a.content])
                ++ tus.map tuBlock))
            :: ((if trs.isEmpty then []
                 else [WireMsg.mk "user" (WireContent.arr (trs.map trBlock))])
                ++ toApiMessages rest)) := by
  simpa [assistantTextBlocks] using
    toApiMessages_group pre tus trs rest a ha htus htrs hmaxU hmaxR

/-- The spec scenario's Assistant turn. -/
def wAssistantTurn : Message :=
  ⟨Role.assistant, "ok, let me check", 0, "", "", "", [], false⟩

/-- The spec scenario's ToolCall turn (id t1, name read). -/
def wToolCallTurn : Message :=
  ⟨Role.toolUse, "", 0, "", "t1", "read", [], false⟩

/-- The spec scenario's ToolResult turn (id t1). -/
def wToolResultTurn : Message :=
  ⟨Role.toolResult, "code...", 0, "", "t1", "", [], false⟩

/-- Claim C1 witness: the spec scenario — Assistant, ToolCall, ToolResult
yields exactly two wire messages: one assistant message with a text
block plus one tool-call block, and one user message with one
tool-result block referencing t1. -/
theorem claim_c1_witness :
    toApiMessages [wAssistantTurn, wToolCallTurn, wToolResultTurn]
      = [WireMsg.mk "assistant" (WireContent.arr
            [Block.text "ok, let me check", Block.toolUseB "t1" "read" []]),
         WireMsg.mk "user" (WireContent.arr [Block.toolResultB "t1" "code..." false])] := by
  have h := claim_c1_grouping [] [wToolCallTurn] [wToolResultTurn] [] wAssistantTurn rfl
    (by intro m hm; rw [List.mem_singleton] at hm; subst hm; rfl)
    (by intro m hm; rw [List.mem_singleton] at hm; subst hm; rfl)
    (by intro h2 m hm; simp at hm)
    (by intro m hm; simp at hm)
  simpa [toApiMessages_nil, wAssistantTurn, wToolCallTurn, wToolResultTurn,
    tuBlock, trBlock] using h

/-- The content blocks of a wire message (empty for string-form content). -/
def msgBlocks (w : WireMsg) : List Block :=
  match w.content with
  | WireContent.str _ => []
  | WireContent.arr bs => bs

def isToolUseBlock : Block → Bool
  | Block.toolUseB _ _ _ => true
  | _ => false

def isToolResultBlock : Block → Bool
  | Block.toolResultB _ _ _ => true
  | _ => false

/-- All tool-call blocks appearing in a wire message array, in order. -/
def wireToolUses : List WireMsg → List Block
  | [] => []
  | w :: ws => (msgBlocks w).filter isToolUseBlock ++ wireToolUses ws

/-- All tool-result blocks appearing in a wire message array, in order. -/
def wireToolResults : List WireMsg → List Block
  | [] => []
  | w :: ws => (msgBlocks w).filter isToolResultBlock ++ wireToolResults ws

/-- The tool-call blocks that the ToolUse turns of a turn sequence
should contribute, in original order. -/
def turnToolUses : List Message → List Block
  | [] => []
  | m :: ms => (if m.role = Role.toolUse then [tuBlock m] else []) ++ turnToolUses ms

/-- The tool-result blocks that the ToolResult turns of a turn sequence
should contribute, in original order. -/
def turnToolResults : List Message → List Block
  | [] => []
  | m :: ms => (if m.role = Role.toolResult then [trBlock m] else []) ++ turnToolResults ms

theorem wireToolUses_append (l1 l2 : List WireMsg) :
    wireToolUses (l1 ++ l2) = wireToolUses l1 ++ wireToolUses l2 := by
  induction l1 with
  | nil => simp [wireToolUses]
  | cons w ws ih => simp [wireToolUses, ih]

theorem wireToolResults_append (l1 l2 : List WireMsg) :
    wireToolResults (l1 ++ l2) = wireToolResults l1 ++ wireToolResults l2 := by
  induction l1 with
  | nil => simp [wireToolResults]
  | cons w ws ih => simp [wireToolResults, ih]

theorem collectToolUses_turnSplit (l : List Message) :
    turnToolUses l = (collectToolUses l).1 ++ turnToolUses (collectToolUses l).2 := by
  induction l with
  | nil => simp [collectToolUses, turnToolUses]
  | cons m rest ih =>
    by_cases hm : m.role = Role.toolUse
    · simp [collectToolUses, turnToolUses, hm, ih]
    · simp [collectToolUses, turnToolUses, hm]

theorem collectToolResults_turnSplit (l : List Message) :
    turnToolResults l = (collectToolResults l).1 ++ turnToolResults (collectToolResults l).2 := by
  induction l with
  | nil => simp [collectToolResults, turnToolResults]
  | cons m rest ih =>
    by_cases hm : m.role = Role.toolResult
    · simp [collectToolResults, turnToolResults, hm, ih]
    · simp [collectToolResults, turnToolResults, hm]

theorem collectToolUses_keepsResults (l : List Message) :
    turnToolResults (collectToolUses l).2 = turnToolResults l := by
  induction l with
  | nil => simp [collectToolUses]
  | cons m rest ih =>
    by_cases hm : m.role = Role.toolUse
    · have hr : ¬ (m.role = Role.toolResult) := by simp [hm]
      simp [collectToolUses, turnToolResults, hm, hr, ih]
    · simp [collectToolUses, hm]

theorem collectToolResults_keepsUses (l : List Message) :
    turnToolUses (collectToolResults l).2 = turnToolUses l := by
  induction l with
  | nil => simp [collectToolResults]
  | cons m rest ih =>
    by_cases hm : m.role = Role.toolResult
    · have hr : ¬ (m.role = Role.toolUse) := by simp [hm]
      simp [collectToolResults, turnToolUses, hm, hr, ih]
    · simp [collectToolResults, hm]

theorem collectToolUses_blocks_tu (l : List Message) :
    (collectToolUses l).1.filter isToolUseBlock = (collectToolUses l).1 := by
  induction l with
  | nil => simp [collectToolUses]
  | cons m rest ih =>
    by_cases hm : m.role = Role.toolUse
    · simp [collectToolUses, hm, tuBlock, isToolUseBlock, ih]
    · simp [collectToolUses, hm]

theorem collectToolUses_blocks_tr (l : List Message) :
    (collectToolUses l).1.filter isToolResultBlock = [] := by
  induction l with
  | nil => simp [collectToolUses]
  | cons m rest ih =>
    by_cases hm : m.role = Role.toolUse
    · simp [collectToolUses, hm, tuBlock, isToolResultBlock, ih]
    · simp [collectToolUses, hm]

theorem collectToolResults_blocks_tr (l : List Message) :
    (collectToolResults l).1.filter isToolResultBlock = (collectToolResults l).1 := by
  induction l with
  | nil => simp [collectToolResults]
  | cons m rest ih =>
    by_cases hm : m.role = Role.toolResult
    · simp [collectToolResults, hm, trBlock, isToolResultBlock, ih]
    · simp [collectToolResults, hm]

theorem collectToolResults_blocks_tu (l : List Message) :
    (collectToolResults l).1.filter isToolUseBlock = [] := by
  induction l with
  | nil => simp [collectToolResults]
  | cons m rest ih =>
    by_cases hm : m.role = Role.toolResult
    · simp [collectToolResults, hm, trBlock, isToolUseBlock, ih]
    · simp [collectToolResults, hm]

theorem collectToolResults_fst_nil {l : List Message} (h : (collectToolResults l).1 = []) :
    (collectToolResults l).2 = l := by
  cases l with
  | nil => rfl
  | cons m rest =>
    by_cases hm : m.role = Role.toolResult
    · rw [collectToolResults, if_pos hm] at h
      simp at h
    · rw [collectToolResults, if_neg hm]

theorem assistantTextBlocks_filter_tu (c : String) :
    (assistantTextBlocks c).filter isToolUseBlock = [] := by
  rw [assistantTextBlocks]
  split <;> simp [isToolUseBlock]

theorem assistantTextBlocks_filter_tr (c : String) :
    (assistantTextBlocks c).filter isToolResultBlock = [] := by
  rw [assistantTextBlocks]
  split <;> simp [isToolResultBlock]

theorem resultsGroup_wireToolUses (l : List Message) :
    wireToolUses (resultsGroup l).1 = [] := by
  rw [resultsGroup]
  split
  · simp [wireToolUses]
  · simp [wireToolUses, msgBlocks, collectToolResults_blocks_tu l]

theorem resultsGroup_wireToolResults (l : List Message) :
    wireToolResults (resultsGroup l).1 = (collectToolResults l).1 := by
  rw [resultsGroup]
  split
  · rename_i h
    have h2 : (collectToolResults l).1 = [] := by simpa [List.isEmpty_iff] using h
    simp [wireToolResults, h2]
  · simp [wireToolResults, msgBlocks, collectToolResults_blocks_tr l]

theorem resultsGroup_keepsUses (l : List Message) :
    turnToolUses (resultsGroup l).2 = turnToolUses l := by
  rw [resultsGroup]
  split
  · rfl
  · simp [collectToolResults_keepsUses]

theorem resultsGroup_trTail (l : List Message) :
    turnToolResults (resultsGroup l).2 = turnToolResults (collectToolResults l).2 := by
  rw [resultsGroup]
  split
  · rename_i h
    rw [collectToolResults_fst_nil (by simpa [List.isEmpty_iff] using h)]
  · rfl

theorem resultsGroup_bound (l : List Message) :
    (resultsGroup l).1.length + (resultsGroup l).2.length ≤ l.length := by
  rw [resultsGroup]
  split
  · simp
  · rename_i h
    have h1 := collectToolResults_lengths l
    have h2 : (collectToolResults l).1 ≠ [] := by
      simpa [List.isEmpty_iff] using h
    have h3 : 0 < (collectToolResults l).1.length := List.length_pos.mpr h2
    simp only [List.length_singleton]
    omega

theorem toApiMessages_length_le (l : List Message) :
    (toApiMessages l).length ≤ l.length := by
  induction l using toApiMessages.induct with
  | case1 => simp [toApiMessages]
  | case2 m rest h1 ih =>
    rw [toApiMessages, if_pos h1]
    simp only [List.length_cons]
    omega
  | case3 m rest h1 h2 ih =>
    rw [toApiMessages, if_neg h1, if_pos h2]
    have hcu := collectToolUses_length_le rest
    have hrb := resultsGroup_bound (collectToolUses rest).2
    simp only [List.length_append, List.length_cons]
    omega
  | case4 m rest h1 h2 h3 ih =>
    rw [toApiMessages, if_neg h1, if_neg h2, if_pos h3]
    have hcu := collectToolUses_length_le rest
    have hrb := resultsGroup_bound (collectToolUses rest).2
    simp only [List.length_append, List.length_cons]
    omega
  | case5 m rest h1 h2 h3 ih =>
    rw [toApiMessages, if_neg h1, if_neg h2, if_neg h3]
    have hcr := collectToolResults_length_le rest
    simp only [List.length_cons]
    omega

theorem toApiMessages_toolUses (l : List Message) :
    wireToolUses (toApiMessages l) = turnToolUses l := by
  induction l using toApiMessages.induct with
  | case1 => simp [toApiMessages, wireToolUses, turnToolUses]
  | case2 m rest h1 ih =>
    rw [toApiMessages, if_pos h1, wireToolUses, ih]
    have hb : msgBlocks m.toApiFormat = [] := by
      simp [Message.toApiFormat, h1, msgBlocks]
    have hr : ¬ (m.role = Role.toolUse) := by simp [h1]
    rw [hb, turnToolUses, if_neg hr]
    simp
  | case3 m rest h1 h2 ih =>
    rw [toApiMessages, if_neg h1, if_pos h2, wireToolUses_append, ih, wireToolUses,
      resultsGroup_wireToolUses]
    have hr : ¬ (m.role = Role.toolUse) := by simp [h2]
    rw [turnToolUses, if_neg hr, collectToolUses_turnSplit rest, resultsGroup_keepsUses]
    simp [msgBlocks, List.filter_append, assistantTextBlocks_filter_tu,
      collectToolUses_blocks_tu]
  | case4 m rest h1 h2 h3 ih =>
    rw [toApiMessages, if_neg h1, if_neg h2, if_pos h3, wireToolUses_append, ih, wireToolUses,
      resultsGroup_wireToolUses]
    rw [turnToolUses, if_pos h3, collectToolUses_turnSplit rest, resultsGroup_keepsUses]
    simp [msgBlocks, List.filter_cons, List.filter_append, isToolUseBlock, tuBlock,
      collectToolUses_blocks_tu]
  | case5 m rest h1 h2 h3 ih =>
    have hm : m.role = Role.toolResult := by
      cases hr : m.role <;> simp_all
    rw [toApiMessages, if_neg h1, if_neg h2, if_neg h3, wireToolUses, ih,
      collectToolResults_keepsUses]
    have hr : ¬ (m.role = Role.toolUse) := by simp [hm]
    rw [turnToolUses, if_neg hr]
    simp [msgBlocks, List.filter_cons, isToolUseBlock, trBlock,
      collectToolResults_blocks_tu]

theorem toApiMessages_toolResults (l : List Message) :
    wireToolResults (toApiMessages l) = turnToolResults l := by
  induction l using toApiMessages.induct with
  | case1 => simp [toApiMessages, wireToolResults, turnToolResults]
  | case2 m rest h1 ih =>
    rw [toApiMessages, if_pos h1, wireToolResults, ih]
    have hb : msgBlocks m.toApiFormat = [] := by
      simp [Message.toApiFormat, h1, msgBlocks]
    have hr : ¬ (m.role = Role.toolResult) := by simp [h1]
    rw [hb, turnToolResults, if_neg hr]
    simp
  | case3 m rest h1 h2 ih =>
    rw [toApiMessages, if_neg h1, if_pos h2, wireToolResults_append, ih, wireToolResults,
      resultsGroup_wireToolResults, resultsGroup_trTail]
    have hr : ¬ (m.role = Role.toolResult) := by simp [h2]
    rw [turnToolResults, if_neg hr, ← collectToolUses_keepsResults rest,
      collectToolResults_turnSplit (collectToolUses rest).2]
    simp [msgBlocks, List.filter_append, assistantTextBlocks_filter_tr,
      collectToolUses_blocks_tr]
  | case4 m rest h1 h2 h3 ih =>
    rw [toApiMessages, if_neg h1, if_neg h2, if_pos h3, wireToolResults_append, ih,
      wireToolResults, resultsGroup_wireToolResults, resultsGroup_trTail]
    have hr : ¬ (m.role = Role.toolResult) := by simp [h3]
    rw [turnToolResults, if_neg hr, ← collectToolUses_keepsResults rest,
      collectToolResults_turnSplit (collectToolUses rest).2]
    simp [msgBlocks, List.filter_cons, List.filter_append, isToolResultBlock, tuBlock,
      collectToolUses_blocks_tr]
  | case5 m rest h1 h2 h3 ih =>
    have hm : m.role = Role.toolResult := by
      cases hr : m.role <;> simp_all
    rw [toApiMessages, if_neg h1, if_neg h2, if_neg h3, wireToolResults, ih]
    rw [turnToolResults, if_pos hm, collectToolResults_turnSplit rest]
    simp [msgBlocks, List.filter_cons, isToolResultBlock, trBlock,
      collectToolResults_blocks_tr]

/-- Claim C2: for every turn sequence, the wire array is no longer
than the turn sequence, and every ToolUse (ToolCall) turn and every
ToolResult turn contributes exactly one block, in the turns' original
relative order, across the wire messages' content arrays — no turn is
dropped, including leading ToolUse runs and orphan ToolResult runs. -/
theorem claim_c2_no_turn_dropped (l : List Message) :
    (toApiMessages l).length ≤ l.length
    ∧ wireToolUses (toApiMessages l) = turnToolUses l
    ∧ wireToolResults (toApiMessages l) = turnToolResults l :=
  ⟨toApiMessages_length_le l, toApiMessages_toolUses l, toApiMessages_toolResults l⟩

theorem resultsGroup_roles (l : List Message) :
    ∀ w ∈ (resultsGroup l).1, w.role = "user" := by
  rw [resultsGroup]
  split
  · simp
  · simp

/-- Every assistant wire message emitted by the grouping walk carries
array-form content; the plain-string form appears only on user
messages (from the per-turn serialization of User turns). -/
theorem toApiMessages_assistant_arr (l : List Message) :
    ∀ w ∈ toApiMessages l, w.role = "assistant" → ∃ bs, w.content = WireContent.arr bs := by
  induction l using toApiMessages.induct with
  | case1 => simp [toApiMessages]
  | case2 m rest h1 ih =>
    rw [toApiMessages, if_pos h1]
    intro w hw hrole
    rcases List.mem_cons.mp hw with hw | hw
    · subst hw
      simp [Message.toApiFormat, h1] at hrole
    · exact ih w hw hrole
  | case3 m rest h1 h2 ih =>
    rw [toApiMessages, if_neg h1, if_pos h2]
    intro w hw hrole
    rcases List.mem_append.mp hw with hw | hw
    · rcases List.mem_cons.mp hw with hw | hw
      · subst hw
        exact ⟨_, rfl⟩
      · have hu := resultsGroup_roles (collectToolUses rest).2 w hw
        rw [hu] at hrole
        simp at hrole
    · exact ih w hw hrole
  | case4 m rest h1 h2 h3 ih =>
    rw [toApiMessages, if_neg h1, if_neg h2, if_pos h3]
    intro w hw hrole
    rcases List.mem_append.mp hw with hw | hw
    · rcases List.mem_cons.mp hw with hw | hw
      · subst hw
        exact ⟨_, rfl⟩
      · have hu := resultsGroup_roles (collectToolUses rest).2 w hw
        rw [hu] at hrole
        simp at hrole
    · exact ih w hw hrole
  | case5 m rest h1 h2 h3 ih =>
    rw [toApiMessages, if_neg h1, if_neg h2, if_neg h3]
    intro w hw hrole
    rcases List.mem_cons.mp hw with hw | hw
    · subst hw
      simp at hrole
    · exact ih w hw hrole

/-- The Bool form of "this turn is a ToolResult", for run splitting. -/
def isToolResultRole (m : Message) : Bool :=
  decide (m.role = Role.toolResult)

theorem head_dropWhile_false {α : Type} (p : α → Bool) (l : List α) :
    ∀ m ∈ (l.dropWhile p).head?, p m = false := by
  induction l with
  | nil => simp
  | cons x xs ih =>
    by_cases hx : p x = true
    · simpa [List.dropWhile_cons, hx] using ih
    · intro m hm
      rw [List.dropWhile_cons, if_neg hx] at hm
      simp only [List.head?_cons, Option.mem_def, Option.some.injEq] at hm
      subst hm
      simpa using hx

/-- Claim C10: an Assistant turn with empty text and no following
ToolUse turn still yields exactly one assistant wire message, whose
content is the empty array; and the grouping path always gives
assistant messages array-form content, never the plain-string form. -/
theorem claim_c10_empty_assistant (pre rest : List Message) (a : Message)
    (ha : a.role = Role.assistant) (hc : a.content = "")
    (hrest : headRoleNe rest Role.toolUse) :
    (∃ tail, toApiMessages (pre ++ (a :: rest))
        = toApiMessages pre ++ (WireMsg.mk "assistant" (WireContent.arr []) :: tail))
    ∧ ∀ w ∈ toApiMessages (pre ++ (a :: rest)), w.role = "assistant" →
        ∃ bs, w.content = WireContent.arr bs := by
  constructor
  · have htrs : ∀ m ∈ rest.takeWhile isToolResultRole, m.role = Role.toolResult := by
      intro m hm
      have h2 := List.mem_takeWhile_imp hm
      simpa [isToolResultRole] using h2
    have hdw : headRoleNe (rest.dropWhile isToolResultRole) Role.toolResult := by
      intro m hm
      have h2 := head_dropWhile_false isToolResultRole rest m hm
      simpa [isToolResultRole] using h2
    have hmaxU : rest.takeWhile isToolResultRole = []
        → headRoleNe (rest.dropWhile isToolResultRole) Role.toolUse := by
      intro hnil
      have hdrop : rest.dropWhile isToolResultRole = rest := by
        conv_rhs => rw [← List.takeWhile_append_dropWhile (p := isToolResultRole) (l := rest)]
        rw [hnil, List.nil_append]
      rw [hdrop]
      exact hrest
    have h := toApiMessages_group pre [] (rest.takeWhile isToolResultRole)
      (rest.dropWhile isToolResultRole) a ha (by simp) htrs hmaxU hdw
    refine ⟨(if (rest.takeWhile isToolResultRole).isEmpty then []
        else [WireMsg.mk "user"
          (WireContent.arr ((rest.takeWhile isToolResultRole).map trBlock))])
      ++ toApiMessages (rest.dropWhile isToolResultRole), ?_⟩
    simpa [hc, assistantTextBlocks, List.takeWhile_append_dropWhile] using h
  · exact fun w hw => toApiMessages_assistant_arr _ w hw

/-- An Assistant turn with empty text. -/
def emptyAssistantTurn : Message :=
  ⟨Role.assistant, "", 0, "", "", "", [], false⟩

/-- Claim C10 witness: a history consisting of a single empty-text
Assistant turn produces exactly one assistant wire message whose
content is the empty array. -/
theorem claim_c10_witness :
    (∃ tail, toApiMessages ([] ++ (emptyAssistantTurn :: []))
        = toApiMessages [] ++ (WireMsg.mk "assistant" (WireContent.arr []) :: tail))
    ∧ ∀ w ∈ toApiMessages ([] ++ (emptyAssistantTurn :: [])), w.role = "assistant" →
        ∃ bs, w.content = WireContent.arr bs :=
  claim_c10_empty_assistant [] [] emptyAssistantTurn rfl rfl
    (by intro m hm; simp at hm)

/-- A concrete turn with a whole-second timestamp and tool fields. -/
def secondsTurn : Message :=
  ⟨Role.toolUse, "", 2000, "", "t1", "read", [("path", JVal.jstr "a.scad")], false⟩

/-- Claim C3 witness: a turn whose timestamp has no sub-second part
round-trips exactly through the persisted format. -/
theorem claim_c3_witness :
    Message.fromHistoryFormat (Message.toHistoryFormat secondsTurn) = secondsTurn :=
  (claim_c3_roundtrip secondsTurn).2 (by decide)

/-- The notifications (Qt signals) emitted by `ApiClient`. -/
inductive Notif where
  | streamStarted
  | contentDelta (text : String)
  | toolUseStarted (id : String) (name : String)
  | toolUseInputDelta (id : String) (chunk : String)
  | toolUseComplete (id : String) (name : String) (input : JObj)
  | messageComplete (msg : JObj)
  | errorOccurred (msg : String)
  | rateLimitWaiting (secs : Int)

/-- Position of the first blank-line delimiter:
`sseBuffer_.indexOf("\n\n")` in `ApiClient::onReadyRead`. -/
def findDelim : List Char → Option Nat
  | [] => none
  | [_] => none
  | a :: b :: rest =>
    if a = '\n' ∧ b = '\n' then some 0
    else (findDelim (b :: rest)).map (· + 1)

theorem findDelim_bound {l : List Char} {i : Nat} (h : findDelim l = some i) :
    i + 2 ≤ l.length := by
  induction l generalizing i with
  | nil => simp [findDelim] at h
  | cons a l ih =>
    cases l with
    | nil => simp [findDelim] at h
    | cons b rest =>
      rw [findDelim] at h
      split at h
      · simp only [Option.some.injEq] at h
        simp [← h]
      · simp only [Option.map_eq_some'] at h
        obtain ⟨j, hj, hij⟩ := h
        have := ih hj
        simp only [List.length_cons] at this ⊢
        omega

theorem findDelim_append {l : List Char} {i : Nat} (t : List Char) (h : findDelim l = some i) :
    findDelim (l ++ t) = some i := by
  induction l generalizing i with
  | nil => simp [findDelim] at h
  | cons a l ih =>
    cases l with
    | nil => simp [findDelim] at h
    | cons b rest =>
      rw [findDelim] at h
      rw [List.cons_append, List.cons_append, findDelim]
      split at h
      · rename_i hc
        rw [if_pos hc]
        exact h
      · rename_i hc
        rw [if_neg hc]
        simp only [Option.map_eq_some'] at h
        obtain ⟨j, hj, hij⟩ := h
        have h2 := ih hj
        rw [List.cons_append] at h2
        rw [h2]
        simp [hij]

/-- The frame-extraction loop of `ApiClient::onReadyRead`: repeatedly
cut the buffer at the first blank-line delimiter, yielding the list of
complete frames and the remaining (delimiter-free) buffer. -/
def extractFrames (buf : List Char) : List (List Char) × List Char :=
  match hf : findDelim buf with
  | none => ([], buf)
  | some i =>
    ((buf.take i) :: (extractFrames (buf.drop (i + 2))).1,
     (extractFrames (buf.drop (i + 2))).2)
termination_by buf.length
decreasing_by
  have := findDelim_bound hf
  simp only [List.length_drop]
  omega

theorem extractFrames_none {buf : List Char} (h : findDelim buf = none) :
    extractFrames buf = ([], buf) := by
  unfold extractFrames
  split <;> simp_all

theorem extractFrames_some {buf : List Char} {i : Nat} (h : findDelim buf = some i) :
    extractFrames buf
      = ((buf.take i) :: (extractFrames (buf.drop (i + 2))).1,
         (extractFrames (buf.drop (i + 2))).2) := by
  conv_lhs => rw [extractFrames]
  split <;> simp_all

theorem extractFrames_noDelim (buf : List Char) :
    findDelim (extractFrames buf).2 = none := by
  induction buf using extractFrames.induct with
  | case1 buf hf =>
    rw [extractFrames_none hf]
    exact hf
  | case2 buf i hf ih =>
    rw [extractFrames_some hf]
    exact ih

theorem extractFrames_append (buf t : List Char) :
    extractFrames (buf ++ t)
      = ((extractFrames buf).1 ++ (extractFrames ((extractFrames buf).2 ++ t)).1,
         (extractFrames ((extractFrames buf).2 ++ t)).2) := by
  induction buf using extractFrames.induct with
  | case1 buf hf =>
    rw [extractFrames_none hf]
    simp
  | case2 buf i hf ih =>
    have hb := findDelim_bound hf
    rw [extractFrames_some hf, extractFrames_some (findDelim_append t hf),
      List.take_append_of_le_length (by omega), List.drop_append_of_le_length (by omega),
      ih]
    simp

/-- The per-response accumulator state of `ApiClient`
(`currentMessage_`, `contentBlocks_`, `currentBlockIndex_`,
`currentToolId_`, `currentToolName_`, `currentToolInputJson_`,
`currentTextContent_`). -/
structure AccState where
  currentMessage : JObj
  contentBlocks : List Block
  currentBlockIndex : Int
  currentToolId : String
  currentToolName : String
  currentToolInputJson : String
  currentTextContent : String

/-- The accumulator state as reset at the start of a send. -/
def initAcc : AccState :=
  ⟨[], [], -1, "", "", "", ""⟩

/-- `ApiClient::handleContentBlockStart`. -/
def handleContentBlockStart (st : AccState) (data : JObj) : AccState × List Notif :=
  let st1 := { st with currentBlockIndex := jGetInt data "index" }
  let cb := jGetObj data "content_block"
  if jGetString cb "type" = "text" then
    ({ st1 with currentTextContent := "" }, [])
  else if jGetString cb "type" = "tool_use" then
    ({ st1 with
        currentToolId := jGetString cb "id",
        currentToolName := jGetString cb "name",
        currentToolInputJson := "" },
     [Notif.toolUseStarted (jGetString cb "id") (jGetString cb "name")])
  else (st1, [])

/-- `ApiClient::handleContentBlockDelta`. -/
def handleContentBlockDelta (st : AccState) (data : JObj) : AccState × List Notif :=
  let delta := jGetObj data "delta"
  if jGetString delta "type" = "text_delta" then
    ({ st with currentTextContent := st.currentTextContent ++ jGetString delta "text" },
     [Notif.contentDelta (jGetString delta "text")])
  else if jGetString delta "type" = "input_json_delta" then
    ({ st with currentToolInputJson := st.currentToolInputJson ++ jGetString delta "partial_json" },
     [Notif.toolUseInputDelta st.currentToolId (jGetString delta "partial_json")])
  else (st, [])

/-- `ApiClient::handleContentBlockStop`; `jp` models
`QJsonDocument::fromJson` on the accumulated tool-input text.  A parse
error (`none`) or a parsed non-object both finalize with the empty
input object (`QJsonDocument::object()` of a non-object document is
empty). -/
def handleContentBlockStop (jp : String → Option JVal) (st : AccState) (_data : JObj) :
    AccState × List Notif :=
  if st.currentToolId ≠ "" then
    ({ st with
        contentBlocks := st.contentBlocks
          ++ [Block.toolUseB st.currentToolId st.currentToolName
              (match jp st.currentToolInputJson with
               | some (JVal.jobj o) => o
               | _ => [])],
        currentToolId := "", currentToolName := "", currentToolInputJson := "" },
     [Notif.toolUseComplete st.currentToolId st.currentToolName
        (match jp st.currentToolInputJson with
         | some (JVal.jobj o) => o
         | _ => [])])
  else if st.currentTextContent ≠ "" then
    ({ st with
        contentBlocks := st.contentBlocks ++ [Block.text st.currentTextContent],
        currentTextContent := "" },
     [])
  else (st, [])

/-- `ApiClient::handleMessageDelta`. -/
def handleMessageDelta (st : AccState) (data : JObj) : AccState × List Notif :=
  let delta := jGetObj data "delta"
  let st1 := if jContains delta "stop_reason" then
      { st with currentMessage := jInsert st.currentMessage "stop_reason" (jGet delta "stop_reason") }
    else st
  let st2 := if jContains delta "stop_sequence" then
      { st1 with currentMessage := jInsert st1.currentMessage "stop_sequence" (jGet delta "stop_sequence") }
    else st1
  let st3 := if jContains data "usage" then
      { st2 with currentMessage := jInsert st2.currentMessage "usage" (jGet data "usage") }
    else st2
  (st3, [])

/-- `ApiClient::processSSEEvent`: parse the data payload as JSON
(discarding the frame silently when it is not an object) and dispatch
on the event type; unknown event types are ignored. -/
def processSSEEvent (jp : String → Option JVal) (st : AccState) (eventType data : String) :
    AccState × List Notif :=
  match jp data with
  | some (JVal.jobj obj) =>
    if eventType = "message_start" then
      ({ st with currentMessage := jGetObj obj "message" }, [])
    else if eventType = "content_block_start" then
      handleContentBlockStart st obj
    else if eventType = "content_block_delta" then
      handleContentBlockDelta st obj
    else if eventType = "content_block_stop" then
      handleContentBlockStop jp st obj
    else if eventType = "message_delta" then
      handleMessageDelta st obj
    else if eventType = "message_stop" then
      (st, [])
    else if eventType = "error" then
      (st, [Notif.errorOccurred (jGetString (jGetObj obj "error") "message")])
    else (st, [])
  | _ => (st, [])

/-- The line scan of `ApiClient::parseSSEChunk`: the last line
beginning `event: ` (trimmed, after dropping the 7-character prefix)
and the last line beginning `data: ` (not trimmed, after the
6-character prefix). -/
def scanFrameLines (lines : List String) : String × String :=
  lines.foldl
    (fun acc line =>
      if line.startsWith "event: " then ((line.drop 7).trim, acc.2)
      else if line.startsWith "data: " then (acc.1, line.drop 6)
      else acc)
    ("", "")

/-- `ApiClient::parseSSEChunk`: split the frame into lines, scan for
the event/data parts, and process the event only when both are
non-empty (a frame lacking either part is discarded silently). -/
def parseSSEChunk (jp : String → Option JVal) (st : AccState) (frame : List Char) :
    AccState × List Notif :=
  let lines := (String.mk frame).splitOn "\n"
  if (scanFrameLines lines).1 ≠ "" ∧ (scanFrameLines lines).2 ≠ "" then
    processSSEEvent jp st (scanFrameLines lines).1 (scanFrameLines lines).2
  else (st, [])

/-- Processing a list of frames in order, concatenating the emitted
notifications. -/
def stepFrames (jp : String → Option JVal) (st : AccState) :
    List (List Char) → AccState × List Notif
  | [] => (st, [])
  | f :: fs =>
    ((stepFrames jp (parseSSEChunk jp st f).1 fs).1,
     (parseSSEChunk jp st f).2 ++ (stepFrames jp (parseSSEChunk jp st f).1 fs).2)

theorem stepFrames_append (jp : String → Option JVal) (st : AccState)
    (fs1 fs2 : List (List Char)) :
    stepFrames jp st (fs1 ++ fs2)
      = ((stepFrames jp (stepFrames jp st fs1).1 fs2).1,
         (stepFrames jp st fs1).2 ++ (stepFrames jp (stepFrames jp st fs1).1 fs2).2) := by
  induction fs1 generalizing st with
  | nil => simp [stepFrames]
  | cons f fs ih => simp [stepFrames, ih]

/-- Frame extraction over a chunk sequence: the frames produced chunk
by chunk, and the final buffered remainder. -/
def feedAll (buf : List Char) : List (List Char) → List (List Char) × List Char
  | [] => ([], buf)
  | c :: cs =>
    ((extractFrames (buf ++ c)).1 ++ (feedAll (extractFrames (buf ++ c)).2 cs).1,
     (feedAll (extractFrames (buf ++ c)).2 cs).2)

theorem feedAll_eq (buf : List Char) (chunks : List (List Char))
    (h : findDelim buf = none) :
    feedAll buf chunks = extractFrames (buf ++ chunks.flatten) := by
  induction chunks generalizing buf with
  | nil => simp [feedAll, extractFrames_none h]
  | cons c cs ih =>
    rw [List.flatten_cons, ← List.append_assoc,
      extractFrames_append (buf ++ c) cs.flatten,
      ← ih _ (extractFrames_noDelim (buf ++ c))]
    rw [feedAll]

/-- The SSE-level state of one in-flight reply: the accumulator plus
the buffered bytes (`sseBuffer_`). -/
structure SseRun where
  acc : AccState
  buffer : List Char

/-- `ApiClient::onReadyRead`: append the delivered bytes to the
buffer, then extract and process every complete frame. -/
def onReadyRead (jp : String → Option JVal) (s : SseRun) (chunk : List Char) :
    SseRun × List Notif :=
  (⟨(stepFrames jp s.acc (extractFrames (s.buffer ++ chunk)).1).1,
    (extractFrames (s.buffer ++ chunk)).2⟩,
   (stepFrames jp s.acc (extractFrames (s.buffer ++ chunk)).1).2)

/-- Delivering a sequence of transport chunks one `onReadyRead` at a
time. -/
def onReadyReadAll (jp : String → Option JVal) (s : SseRun) :
    List (List Char) → SseRun × List Notif
  | [] => (s, [])
  | c :: cs =>
    ((onReadyReadAll jp (onReadyRead jp s c).1 cs).1,
     (onReadyRead jp s c).2 ++ (onReadyReadAll jp (onReadyRead jp s c).1 cs).2)

/-- The JSON object of one finalized content block, as appended to
`contentBlocks_`. -/
def blockToJVal : Block → JVal
  | Block.text t => JVal.jobj [("type", JVal.jstr "text"), ("text", JVal.jstr t)]
  | Block.toolUseB id name input =>
    JVal.jobj [("type", JVal.jstr "tool_use"), ("id", JVal.jstr id),
      ("name", JVal.jstr name), ("input", JVal.jobj input)]
  | Block.toolResultB id c e =>
    JVal.jobj ([("type", JVal.jstr "tool_result"), ("tool_use_id", JVal.jstr id),
      ("content", JVal.jstr c)] ++ (if e then [("is_error", JVal.jbool true)] else []))

/-- `currentMessage_["content"] = contentBlocks_` in
`ApiClient::onFinished`. -/
def attachContent (st : AccState) : JObj :=
  jInsert st.currentMessage "content" (JVal.jarr (st.contentBlocks.map blockToJVal))

/-- `ApiClient::onFinished`: process any buffered remainder as one
final frame, then emit the single message-complete notification with
the content blocks attached. -/
def onFinishedSse (jp : String → Option JVal) (s : SseRun) : List Notif :=
  if s.buffer.isEmpty then
    [Notif.messageComplete (attachContent s.acc)]
  else
    (parseSSEChunk jp s.acc s.buffer).2
      ++ [Notif.messageComplete (attachContent (parseSSEChunk jp s.acc s.buffer).1)]

/-- The complete notification sequence of one successful streamed
response delivered as the given transport chunks: everything emitted
by the `onReadyRead` calls followed by everything emitted at transport
completion. -/
def clientNotifs (jp : String → Option JVal) (chunks : List (List Char)) : List Notif :=
  (onReadyReadAll jp ⟨initAcc, []⟩ chunks).2
    ++ onFinishedSse jp (onReadyReadAll jp ⟨initAcc, []⟩ chunks).1

theorem onReadyReadAll_eq (jp : String → Option JVal) (st : AccState) (buf : List Char)
    (chunks : List (List Char)) (h : findDelim buf = none) :
    onReadyReadAll jp ⟨st, buf⟩ chunks
      = (⟨(stepFrames jp st (feedAll buf chunks).1).1, (feedAll buf chunks).2⟩,
         (stepFrames jp st (feedAll buf chunks).1).2) := by
  induction chunks generalizing st buf with
  | nil => simp [onReadyReadAll, feedAll, stepFrames]
  | cons c cs ih =>
    simp only [onReadyReadAll, onReadyRead]
    rw [ih _ _ (extractFrames_noDelim (buf ++ c))]
    simp only [feedAll]
    rw [stepFrames_append]

/-- Claim C4: for every response byte stream and every way of cutting
it into chunks, feeding the chunks one at a time and then signalling
transport completion emits exactly the notification sequence of
delivering the whole stream as one single chunk. -/
theorem claim_c4_chunk_invariance (jp : String → Option JVal) (chunks : List (List Char)) :
    clientNotifs jp chunks = clientNotifs jp [chunks.flatten] := by
  unfold clientNotifs
  rw [onReadyReadAll_eq jp initAcc [] chunks rfl,
    onReadyReadAll_eq jp initAcc [] [chunks.flatten] rfl,
    feedAll_eq [] chunks rfl, feedAll_eq [] [chunks.flatten] rfl]
  simp

theorem string_append_assoc (a b c : String) : (a ++ b) ++ c = a ++ (b ++ c) := by
  apply String.ext
  simp [String.data_append, List.append_assoc]

/-- Concatenation of a list of strings, in order. -/
def strConcat : List String → String
  | [] => ""
  | s :: rest => s ++ strConcat rest

/-- The decoded `content_block_start` event object of a tool-use block
(index plus a content_block carrying type/id/name). -/
def mkToolStartEvent (idx : Int) (id name : String) : JObj :=
  [("index", JVal.jnum idx),
   ("content_block", JVal.jobj [("type", JVal.jstr "tool_use"),
     ("id", JVal.jstr id), ("name", JVal.jstr name)])]

/-- The decoded `content_block_delta` event object of one
`input_json_delta` chunk. -/
def mkInputDeltaEvent (chunk : String) : JObj :=
  [("delta", JVal.jobj [("type", JVal.jstr "input_json_delta"),
     ("partial_json", JVal.jstr chunk)])]

/-- Delivering a sequence of `input_json_delta` events to
`handleContentBlockDelta`, one at a time. -/
def applyInputDeltas (st : AccState) : List String → AccState × List Notif
  | [] => (st, [])
  | c :: cs =>
    ((applyInputDeltas (handleContentBlockDelta st (mkInputDeltaEvent c)).1 cs).1,
     (handleContentBlockDelta st (mkInputDeltaEvent c)).2
       ++ (applyInputDeltas (handleContentBlockDelta st (mkInputDeltaEvent c)).1 cs).2)

theorem applyInputDeltas_spec (st : AccState) (chunks : List String) :
    (applyInputDeltas st chunks).1
      = { st with currentToolInputJson := st.currentToolInputJson ++ strConcat chunks }
    ∧ (applyInputDeltas st chunks).2
      = chunks.map (Notif.toolUseInputDelta st.currentToolId) := by
  induction chunks generalizing st with
  | nil =>
    obtain ⟨cm, cbs, bi, tid, tn, tj, tt⟩ := st
    simp [applyInputDeltas, strConcat]
  | cons c cs ih =>
    have hd : handleContentBlockDelta st (mkInputDeltaEvent c)
        = ({ st with currentToolInputJson := st.currentToolInputJson ++ c },
           [Notif.toolUseInputDelta st.currentToolId c]) := by
      simp [handleContentBlockDelta, mkInputDeltaEvent, jGetObj, jGetString, jLookup]
    constructor
    · simp only [applyInputDeltas, hd, (ih _).1]
      obtain ⟨cm, cbs, bi, tid, tn, tj, tt⟩ := st
      simp [strConcat, string_append_assoc]
    · simp only [applyInputDeltas, hd, (ih _).2]
      rfl

/-- The accumulator run of one streamed tool-use content block:
`content_block_start` for a tool_use block, the `input_json_delta`
chunks one at a time, then `content_block_stop`. -/
def runToolBlock (jp : String → Option JVal) (st0 : AccState) (id name : String)
    (chunks : List String) : AccState × List Notif :=
  handleContentBlockStop jp
    (applyInputDeltas (handleContentBlockStart st0 (mkToolStartEvent 0 id name)).1 chunks).1
    []

/-- Claim C6: when `content_block_stop` arrives with a tool call open,
the finalized tool-call block's input is the JSON object obtained by
parsing the concatenation of all the `input_json_delta` chunks; if
that text does not parse as a JSON object the block is finalized with
the empty input object instead; the tool-call-complete notification is
emitted either way (and no error notification), and the accumulator is
left in a normal state with the tool scratch cleared, ready for
further events — the stream is not aborted. -/
theorem claim_c6_tool_input_finalize (jp : String → Option JVal) (st0 : AccState)
    (id name : String) (chunks : List String) (hid : id ≠ "") :
    (runToolBlock jp st0 id name chunks).1.contentBlocks
      = st0.contentBlocks
        ++ [Block.toolUseB id name
            (match jp (strConcat chunks) with
             | some (JVal.jobj o) => o
             | _ => [])]
    ∧ (runToolBlock jp st0 id name chunks).2
      = [Notif.toolUseComplete id name
          (match jp (strConcat chunks) with
           | some (JVal.jobj o) => o
           | _ => [])]
    ∧ (runToolBlock jp st0 id name chunks).1.currentToolId = ""
    ∧ (runToolBlock jp st0 id name chunks).1.currentToolInputJson = "" := by
  unfold runToolBlock
  obtain ⟨cm, cbs, bi, tid, tn, tj, tt⟩ := st0
  have hstart : (handleContentBlockStart (AccState.mk cm cbs bi tid tn tj tt)
      (mkToolStartEvent 0 id name)).1 = AccState.mk cm cbs 0 id name "" tt := by
    simp [handleContentBlockStart, mkToolStartEvent, jGetObj, jGetString, jGetInt, jLookup]
  rw [hstart, (applyInputDeltas_spec (AccState.mk cm cbs 0 id name "" tt) chunks).1]
  simp [handleContentBlockStop, hid]

/-- The Qt JSON parser restricted to the single input the C6 scenario
needs: the concatenation of the two scenario chunks parses to the
object with one `content` key. -/
def scenarioParse (s : String) : Option JVal :=
  if s = "\x7b\"content\":\"cube(1);\"\x7d" then
    some (JVal.jobj [("content", JVal.jstr "cube(1);")])
  else none

/-- The two `input_json_delta` chunks of the spec scenario. -/
def scenarioChunks : List String :=
  ["\x7b\"cont", "ent\":\"cube(1);\"\x7d"]

/-- Claim C6 witness: the spec scenario — a tool_use block for
`t9`/`write` whose input arrives as the two chunks, finalized on
`content_block_stop` with the parsed input object. -/
theorem claim_c6_witness :
    (runToolBlock scenarioParse initAcc "t9" "write" scenarioChunks).1.contentBlocks
      = initAcc.contentBlocks
        ++ [Block.toolUseB "t9" "write"
            (match scenarioParse (strConcat scenarioChunks) with
             | some (JVal.jobj o) => o
             | _ => [])]
    ∧ (runToolBlock scenarioParse initAcc "t9" "write" scenarioChunks).2
      = [Notif.toolUseComplete "t9" "write"
          (match scenarioParse (strConcat scenarioChunks) with
           | some (JVal.jobj o) => o
           | _ => [])]
    ∧ (runToolBlock scenarioParse initAcc "t9" "write" scenarioChunks).1.currentToolId = ""
    ∧ (runToolBlock scenarioParse initAcc "t9" "write" scenarioChunks).1.currentToolInputJson = "" :=
  claim_c6_tool_input_finalize scenarioParse initAcc "t9" "write" scenarioChunks (by decide)

/-- The scenario parse input is indeed the chunk concatenation, and it
parses to the expected one-key object. -/
theorem scenarioParse_eval :
    scenarioParse (strConcat scenarioChunks)
      = some (JVal.jobj [("content", JVal.jstr "cube(1);")]) := by
  rfl

/-- `MAX_RETRIES` (ClaudeApiClient.h). -/
def MAX_RETRIES : Nat := 3

/-- `DEFAULT_RETRY_DELAY_MS` (ClaudeApiClient.h). -/
def DEFAULT_RETRY_DELAY_MS : Int := 30000

/-- The `ApiClient` state relevant to send/cancel/retry:
`apiKey_`, whether `currentReply_` is non-null (`inFlight`), whether
`retryTimer_` is active (`retryScheduled`), `retryCount_`, the stored
pending request parameters, and the per-reply SSE state. -/
structure ClientState where
  apiKey : String
  inFlight : Bool
  retryScheduled : Bool
  retryCount : Nat
  pendingModelId : String
  pendingMessages : List WireMsg
  pendingTools : List JVal
  pendingSystemPrompt : String
  pendingMaxTokens : Int
  sseBuffer : List Char
  acc : AccState

/-- `ApiClient::sendMessage`: reject when unconfigured or when a reply
is in flight (`isRequestInProgress()` checks only `currentReply_`);
otherwise store the pending parameters, reset the per-reply state and
post the request (the network POST is abstracted to `inFlight := true`
— the JSON body built from the parameters has no observable effect on
the modelled behaviour).  Note that the `retryTimer_` is not stopped
here. -/
def sendMessage (st : ClientState) (modelId : String) (messages : List WireMsg)
    (tools : List JVal) (systemPrompt : String) (maxTokens : Int) : ClientState × List Notif :=
  if st.apiKey = "" then (st, [Notif.errorOccurred "API key not configured"])
  else if st.inFlight then (st, [Notif.errorOccurred "Request already in progress"])
  else
    ({ st with
        pendingModelId := modelId,
        pendingMessages := messages,
        pendingTools := tools,
        pendingSystemPrompt := systemPrompt,
        pendingMaxTokens := maxTokens,
        sseBuffer := [],
        acc := initAcc,
        inFlight := true },
     [Notif.streamStarted])

/-- `ApiClient::cancelRequest`: stop any pending retry, reset the
retry counter, and take/abort/delete the reply with its signals
blocked (so the abort never reaches `onError`); emits nothing. -/
def cancelRequest (st : ClientState) : ClientState × List Notif :=
  ({ st with retryScheduled := false, retryCount := 0, inFlight := false }, [])

/-- The fixed status-code taxonomy of `ApiClient::onError`, with the
transport `errorString()` fallback for non-HTTP failures (replaced by
a generic message when it contains `server replied:`). -/
def statusMessage (s : Int) (transportErrStr : String) : String :=
  if s > 0 then
    if s = 400 then "Bad request - check your message format"
    else if s = 401 then "Invalid API key - please check your API key in settings"
    else if s = 403 then "Access forbidden - your API key may not have permission"
    else if s = 404 then "API endpoint not found"
    else if s = 429 then "Rate limited - too many requests. Max retries exceeded."
    else if s = 500 then "Anthropic server error - try again later"
    else if s = 529 then "Anthropic API overloaded - try again later"
    else "HTTP error " ++ toString s
  else if transportErrStr.containsSubstr "server replied:" then
    "Network error - check your internet connection"
  else transportErrStr

/-- `ApiClient::onError`.  `opCanceled` is
`error == QNetworkReply::OperationCanceledError`; `bodyErrMsg` is the
`type: message` string extracted from a structured error body (empty
when the body had none); `retryHeader` is the `retry-after` header
value when present and integer-parsable.  A 429 under the retry cap
cleans up the reply, emits a waiting notification with the header
delay (when positive) or the 30-second default, starts the retry
timer and bumps the counter; otherwise the error is reported (body
message first) and the counter resets. -/
def onError (st : ClientState) (opCanceled : Bool) (httpStatus : Int)
    (bodyErrMsg : String) (retryHeader : Option Int) (transportErrStr : String) :
    ClientState × List Notif :=
  if ¬ st.inFlight then (st, [])
  else if opCanceled then (st, [])
  else if httpStatus = 429 ∧ st.retryCount < MAX_RETRIES then
    ({ st with inFlight := false, retryCount := st.retryCount + 1, retryScheduled := true },
     [Notif.rateLimitWaiting
        (match retryHeader with
         | some v => if v > 0 then v else DEFAULT_RETRY_DELAY_MS / 1000
         | none => DEFAULT_RETRY_DELAY_MS / 1000)])
  else
    ({ st with inFlight := false, retryCount := 0 },
     [Notif.errorOccurred
        (if bodyErrMsg = "" then statusMessage httpStatus transportErrStr else bodyErrMsg)])

/-- `ApiClient::onRetryTimer`: the single-shot timer fires (so it is
no longer scheduled), the per-reply state is reset and the stored
pending request is posted again. -/
def onRetryTimer (st : ClientState) : ClientState × List Notif :=
  ({ st with sseBuffer := [], acc := initAcc, inFlight := true, retryScheduled := false },
   [Notif.streamStarted])

/-- Delivering `n` consecutive rate-limit responses to one logical
send: each 429 reaches `onError`; whenever a retry gets scheduled the
timer then fires (`onRetryTimer` resends), and the resent attempt
receives the next 429. -/
def run429s (st : ClientState) : Nat → ClientState × List Notif
  | 0 => (st, [])
  | n + 1 =>
    if (onError st false 429 "" none "").1.retryScheduled then
      ((run429s (onRetryTimer (onError st false 429 "" none "").1).1 n).1,
       (onError st false 429 "" none "").2
         ++ (onRetryTimer (onError st false 429 "" none "").1).2
         ++ (run429s (onRetryTimer (onError st false 429 "" none "").1).1 n).2)
    else ((onError st false 429 "" none "").1, (onError st false 429 "" none "").2)

def countWaiting : List Notif → Nat
  | [] => 0
  | Notif.rateLimitWaiting _ :: r => countWaiting r + 1
  | _ :: r => countWaiting r

def countErrors : List Notif → Nat
  | [] => 0
  | Notif.errorOccurred _ :: r => countErrors r + 1
  | _ :: r => countErrors r

def countStarted : List Notif → Nat
  | [] => 0
  | Notif.streamStarted :: r => countStarted r + 1
  | _ :: r => countStarted r

/-- A configured, idle client. -/
def idleClient : ClientState :=
  ⟨"key", false, false, 0, "", [], [], "", 4096, [], initAcc⟩

/-- One send followed by `n` consecutive rate-limit responses:
the resulting client state and the full notification sequence. -/
def rateLimitScenario (n : Nat) : ClientState × List Notif :=
  ((run429s (sendMessage idleClient "model-a" [] [] "" 1024).1 n).1,
   (sendMessage idleClient "model-a" [] [] "" 1024).2
     ++ (run429s (sendMessage idleClient "model-a" [] [] "" 1024).1 n).2)

/-- Claim C5 (counterexample): after exactly 3 rate-limit responses in
a row, 3 waiting notifications have been emitted but no error at all,
and a 4th attempt has been started (it is in flight) — not the
claimed 3 waitings followed by one retries-exhausted error with no 4th
attempt. -/
theorem claim_c5_counterexample :
    countWaiting (rateLimitScenario 3).2 = 3
    ∧ countErrors (rateLimitScenario 3).2 = 0
    ∧ countStarted (rateLimitScenario 3).2 = 4
    ∧ (rateLimitScenario 3).1.inFlight = true :=
  ⟨rfl, rfl, rfl, rfl⟩

/-- Claim C5 (amended): with `MAX_RETRIES = 3` the initial attempt
plus 3 scheduled retries make 4 attempts: 3 consecutive rate-limit
responses produce exactly 3 waiting notifications and start a 4th
attempt; the retries-exhausted error is emitted on the 4th consecutive
rate-limit response, after which no further attempt is made. -/
theorem claim_c5_retry_exhaustion (st : ClientState) (modelId : String)
    (messages : List WireMsg) (tools : List JVal) (systemPrompt : String) (maxTokens : Int)
    (hkey : st.apiKey ≠ "") (hflight : st.inFlight = false) (hcount : st.retryCount = 0) :
    (sendMessage st modelId messages tools systemPrompt maxTokens).2
      ++ (run429s (sendMessage st modelId messages tools systemPrompt maxTokens).1 4).2
      = [Notif.streamStarted,
         Notif.rateLimitWaiting 30, Notif.streamStarted,
         Notif.rateLimitWaiting 30, Notif.streamStarted,
         Notif.rateLimitWaiting 30, Notif.streamStarted,
         Notif.errorOccurred "Rate limited - too many requests. Max retries exceeded."]
    ∧ (run429s (sendMessage st modelId messages tools systemPrompt maxTokens).1 4).1.inFlight = false
    ∧ (run429s (sendMessage st modelId messages tools systemPrompt maxTokens).1 4).1.retryScheduled
        = false := by
  have h30 : DEFAULT_RETRY_DELAY_MS / 1000 = 30 := by decide
  refine ⟨?_, ?_, ?_⟩ <;>
    simp [sendMessage, hkey, hflight, hcount, run429s, onError, onRetryTimer,
      statusMessage, MAX_RETRIES, h30]

/-- Claim C5 witness: the amended behaviour at the concrete idle
client. -/
theorem claim_c5_witness :
    (sendMessage idleClient "model-a" [] [] "" 1024).2
      ++ (run429s (sendMessage idleClient "model-a" [] [] "" 1024).1 4).2
      = [Notif.streamStarted,
         Notif.rateLimitWaiting 30, Notif.streamStarted,
         Notif.rateLimitWaiting 30, Notif.streamStarted,
         Notif.rateLimitWaiting 30, Notif.streamStarted,
         Notif.errorOccurred "Rate limited - too many requests. Max retries exceeded."]
    ∧ (run429s (sendMessage idleClient "model-a" [] [] "" 1024).1 4).1.inFlight = false
    ∧ (run429s (sendMessage idleClient "model-a" [] [] "" 1024).1 4).1.retryScheduled = false :=
  claim_c5_retry_exhaustion idleClient "model-a" [] [] "" 1024 (by decide) rfl rfl

/-- Claim C8: an explicit cancel aborts any in-flight reply, cancels a
pending scheduled retry, resets the retry counter, and emits no
notification at all (in particular no error); a cancellation-induced
transport abort reaching `onError` is also not reported (the
OperationCanceledError early return); and a subsequent send on the
cancelled client is accepted (it emits stream-started, not the
already-in-progress error). -/
theorem claim_c8_cancel (st : ClientState) (modelId : String) (messages : List WireMsg)
    (tools : List JVal) (systemPrompt : String) (maxTokens : Int)
    (httpStatus : Int) (bodyErrMsg : String) (retryHeader : Option Int)
    (transportErrStr : String)
    (hkey : st.apiKey ≠ "") :
    (cancelRequest st).2 = []
    ∧ (cancelRequest st).1.inFlight = false
    ∧ (cancelRequest st).1.retryScheduled = false
    ∧ (cancelRequest st).1.retryCount = 0
    ∧ (sendMessage (cancelRequest st).1 modelId messages tools systemPrompt maxTokens).2
        = [Notif.streamStarted]
    ∧ onError st true httpStatus bodyErrMsg retryHeader transportErrStr = (st, []) := by
  refine ⟨rfl, rfl, rfl, rfl, ?_, ?_⟩
  · simp [sendMessage, cancelRequest, hkey]
  · by_cases hf : st.inFlight <;> simp [onError, hf]

/-- A client with a reply in flight, a retry scheduled and a non-zero
retry counter. -/
def busyClient : ClientState :=
  ⟨"key", true, true, 2, "m", [], [], "", 4096, [], initAcc⟩

/-- Claim C8 witness: cancelling the busy client emits nothing,
clears the in-flight reply, the scheduled retry and the counter, a
cancellation abort reaching `onError` reports nothing, and the next
send is accepted. -/
theorem claim_c8_witness :
    (cancelRequest busyClient).2 = []
    ∧ (cancelRequest busyClient).1.inFlight = false
    ∧ (cancelRequest busyClient).1.retryScheduled = false
    ∧ (cancelRequest busyClient).1.retryCount = 0
    ∧ (sendMessage (cancelRequest busyClient).1 "m2" [] [] "" 256).2
        = [Notif.streamStarted]
    ∧ onError busyClient true 0 "" none "connection aborted" = (busyClient, []) :=
  claim_c8_cancel busyClient "m2" [] [] "" 256 0 "" none "connection aborted" (by decide)

/-- Claim C9 (the code violates it): after one rate-limited attempt a
retry of the same logical request is scheduled while `currentReply_`
is null, so `isRequestInProgress()` is false and a second
`sendMessage` made during the retry wait is accepted — it emits
stream-started (not the already-in-progress error), starts a second
request, and leaves the stale retry timer of the first logical send
still scheduled. -/
theorem claim_c9_second_send_accepted :
    (onError (sendMessage idleClient "m" [] [] "" 100).1 false 429 "" none "").1.retryScheduled
        = true
    ∧ (onError (sendMessage idleClient "m" [] [] "" 100).1 false 429 "" none "").1.inFlight
        = false
    ∧ (sendMessage (onError (sendMessage idleClient "m" [] [] "" 100).1
          false 429 "" none "").1 "m2" [] [] "" 100).2
        = [Notif.streamStarted]
    ∧ (sendMessage (onError (sendMessage idleClient "m" [] [] "" 100).1
          false 429 "" none "").1 "m2" [] [] "" 100).1.inFlight = true
    ∧ (sendMessage (onError (sendMessage idleClient "m" [] [] "" 100).1
          false 429 "" none "").1 "m2" [] [] "" 100).1.retryScheduled = true :=
  ⟨rfl, rfl, rfl, rfl, rfl⟩
